import Mathlib

/-!
Shallow embedding of the `bad64` crate (`src/lib.rs`): the `Instruction`
facade, the `decode` entry point, the `DecodeError` catalog and the
`disassemble` streaming disassembler, together with spec-modelled stand-ins
for the pieces the crate pulls from its sibling modules (`operand.rs`,
`operation.rs`, `reg.rs`, `shift.rs`, `sysreg.rs`, absent from `src/`) and
for the external decoder `aarch64_decompose` (an excluded collaborator,
modelled as a black-box parameter).

Panic encoding: Rust panics (`unwrap` on an unmapped decoder status,
`assert!` in `operation`, the classifier's fatal contract violation) are
modelled by lifting result types into `Option`, with the outer `none`
standing for a panic and `some v` for an ordinary return of `v`.
-/

/-- Capacity of the fixed operand array of a raw decoded record. The value
comes from the external `bad64-sys` crate (upstream arch-arm64 decoder). -/
def MAX_OPERANDS : Nat := 5

/-- Number of distinct values of the `u64` type: 2 ^ 64. Used to model the
wrapping of the address cursor of the disassembler. -/
def U64_SIZE : Nat := 18446744073709551616

/-- Modelled from the spec: size of the closed register enumeration of
`reg.rs` (absent from `src/`); registers are represented by their numeric
decoder codes, valid codes being `1 .. REG_COUNT`. The exact census is
external and does not matter to any claim. -/
def REG_COUNT : Nat := 300

/-- Modelled from the spec: size of the closed system-register enumeration
of `sysreg.rs` (absent from `src/`). -/
def SYSREG_COUNT : Nat := 1000

/-- Modelled from the spec: size of the closed operation enumeration of
`operation.rs` (absent from `src/`); code `0` is the decoder's "none"
sentinel and is not a valid `Operation`. -/
def OPERATION_COUNT : Nat := 1200

/-- Modelled from the spec: a register symbol of the closed `Reg`
enumeration, represented by its numeric decoder code. -/
structure Reg where
  code : Nat
deriving DecidableEq

/-- Modelled from the spec: the fallible register catalog
`code -> Option<Reg>` of `reg.rs`. -/
def Reg.from_code (c : Nat) : Option Reg :=
  if 1 ≤ c ∧ c ≤ REG_COUNT then some ⟨c⟩ else none

/-- Modelled from the spec: a system-register symbol of the closed `SysReg`
enumeration, represented by its numeric decoder code. -/
structure SysReg where
  code : Nat
deriving DecidableEq

/-- Modelled from the spec: the fallible system-register catalog of
`sysreg.rs`. -/
def SysReg.from_code (c : Nat) : Option SysReg :=
  if 1 ≤ c ∧ c ≤ SYSREG_COUNT then some ⟨c⟩ else none

/-- Modelled from the spec: an operation symbol of the closed `Operation`
enumeration of `operation.rs`, represented by its numeric code. -/
structure Operation where
  code : Nat
deriving DecidableEq

/-- Modelled from the spec: the fallible operation catalog
`Operation::from_u32` of `operation.rs`; `0` (the "none" sentinel) has no
mapping. -/
def Operation.from_u32 (c : Nat) : Option Operation :=
  if 1 ≤ c ∧ c ≤ OPERATION_COUNT then some ⟨c⟩ else none

/-- Modelled from the spec: the shift-kind enumeration of `shift.rs`. -/
inductive ShiftKind where
  | LSL
  | LSR
  | ASR
  | ROR
deriving DecidableEq

/-- Modelled from the spec: the fallible shift-kind catalog; `0` is the
"no shift" sentinel of the raw record and has no mapping here. -/
def ShiftKind.from_code (c : Nat) : Option ShiftKind :=
  if c = 1 then some .LSL
  else if c = 2 then some .LSR
  else if c = 3 then some .ASR
  else if c = 4 then some .ROR
  else none

/-- Modelled from the spec: a shift, `{ kind, amount }`. -/
structure Shift where
  kind : ShiftKind
  amount : Nat
deriving DecidableEq

/-- Modelled from the spec: a sign-magnitude immediate `{ neg, val }`;
the signed value is `neg ? -val : val`. -/
structure Imm where
  neg : Bool
  val : Nat
deriving DecidableEq

/-- Modelled from the spec: the closed tagged-variant `Operand` model of
`operand.rs`, one case per addressing/value form of the decoder. -/
inductive Operand where
  | Reg (reg : Reg) (shift : Option Shift)
  | Imm64 (imm : Imm) (shift : Option Shift)
  | MemOffset (base : Reg) (offset : Int)
  | MemPreIdx (base : Reg) (offset : Int)
  | MemPostIdxImm (base : Reg) (imm : Imm)
  | MemPostIdxReg (base : Reg) (index : Reg)
  | MemRegOffset (base : Reg) (index : Reg) (shift : Option Shift)
  | SysRegOp (sysreg : SysReg)
deriving DecidableEq

/-- Modelled from the spec: one raw operand record of the external decoder,
a discriminant tag (`operandClass`) plus the union of possible fields.
Discriminant codes are representative: `0` is the "empty / no operand"
sentinel, `1 .. 8` are the recognized operand forms in the order they are
listed in the data model, anything `≥ 9` is unrecognized. A `shiftType` of
`0` means the operand carries no shift. -/
structure RawOperand where
  operandClass : Nat
  reg0 : Nat
  reg1 : Nat
  immNeg : Bool
  immVal : Nat
  shiftType : Nat
  shiftValue : Nat
  sysreg : Nat
deriving DecidableEq

/-- An all-zero raw operand record, as produced by zeroed memory; its
discriminant is the empty sentinel. -/
def RawOperand.zeroed : RawOperand :=
  { operandClass := 0, reg0 := 0, reg1 := 0, immNeg := false, immVal := 0,
    shiftType := 0, shiftValue := 0, sysreg := 0 }

/-- Result of classifying one raw operand record. `fatal` models the
classifier panicking on a contract violation (an unrecognized non-empty
discriminant, or an unmapped catalog code); `empty` models `Err(..)`, the
end-of-operand-list sentinel; `someOp` models `Ok(..)`. -/
inductive OperandClassResult where
  | fatal
  | empty
  | someOp (o : Operand)
deriving DecidableEq

/-- Modelled from the spec: the optional shift carried by a shiftable raw
operand. `some none` is "no shift" (`shiftType = 0`), `some (some s)` is a
mapped shift, `none` is a fatal unmapped shift code. -/
def RawOperand.shift (r : RawOperand) : Option (Option Shift) :=
  if r.shiftType = 0 then some none
  else (ShiftKind.from_code r.shiftType).map (fun k => some ⟨k, r.shiftValue⟩)

/-- Signed memory offset of a raw operand, from its sign-magnitude
immediate fields. -/
def RawOperand.offset (r : RawOperand) : Int :=
  if r.immNeg then -(r.immVal : Int) else (r.immVal : Int)

/-- Modelled from the spec: the Operand Classifier `Operand::try_from` of
`operand.rs`. Returns `empty` exactly on the empty-sentinel discriminant;
maps every recognized non-empty discriminant to its `Operand` variant with
all fields copied through the catalogs; is `fatal` (a panic) on an
unrecognized non-empty discriminant or an unmapped catalog code. -/
def Operand.try_from (r : RawOperand) : OperandClassResult :=
  match r.operandClass with
  | 0 => .empty
  | 1 =>
    match Reg.from_code r.reg0, r.shift with
    | some reg, some s => .someOp (.Reg reg s)
    | _, _ => .fatal
  | 2 =>
    match r.shift with
    | some s => .someOp (.Imm64 ⟨r.immNeg, r.immVal⟩ s)
    | none => .fatal
  | 3 =>
    match Reg.from_code r.reg0 with
    | some base => .someOp (.MemOffset base r.offset)
    | none => .fatal
  | 4 =>
    match Reg.from_code r.reg0 with
    | some base => .someOp (.MemPreIdx base r.offset)
    | none => .fatal
  | 5 =>
    match Reg.from_code r.reg0 with
    | some base => .someOp (.MemPostIdxImm base ⟨r.immNeg, r.immVal⟩)
    | none => .fatal
  | 6 =>
    match Reg.from_code r.reg0, Reg.from_code r.reg1 with
    | some base, some index => .someOp (.MemPostIdxReg base index)
    | _, _ => .fatal
  | 7 =>
    match Reg.from_code r.reg0, Reg.from_code r.reg1, r.shift with
    | some base, some index, some s => .someOp (.MemRegOffset base index s)
    | _, _, _ => .fatal
  | 8 =>
    match SysReg.from_code r.sysreg with
    | some sr => .someOp (.SysRegOp sr)
    | none => .fatal
  | _ => .fatal

/-- The `.ok()` adapter of `lib.rs` under the panic lifting: `Ok` becomes a
returned operand, `Err` (the empty sentinel) becomes a returned `None`,
and a classifier panic propagates as the outer `none`. -/
def okLift : OperandClassResult → Option (Option Operand)
  | .fatal => none
  | .empty => some none
  | .someOp o => some (some o)

/-- The raw decoded record written by the external decoder: an operation
code plus the fixed array of `MAX_OPERANDS` raw operand slots. Slots the
list does not provide read as zeroed memory (the empty sentinel). -/
structure RawInstruction where
  operation : Nat
  operands : List RawOperand
deriving DecidableEq

/-- A decoded instruction (`struct Instruction` of `lib.rs`): the
caller-supplied address plus the raw record (Rust field `_inner`). -/
structure Instruction where
  address : Nat
  inner : RawInstruction
deriving DecidableEq

/-- `Instruction::operand` of `lib.rs`: bounds-check `n` against
`MAX_OPERANDS` (returning `None` when out of range), otherwise classify raw
slot `n` via `Operand::try_from(..).ok()`. Outer `none` is a classifier
panic. -/
def Instruction.operand (i : Instruction) (n : Nat) : Option (Option Operand) :=
  if MAX_OPERANDS ≤ n then some none
  else okLift (Operand.try_from (i.inner.operands.getD n RawOperand.zeroed))

/-- The `for n in 0..MAX_OPERANDS` loop of `Instruction::num_operands` of
`lib.rs`, over the list of remaining loop indices: return the first index
whose slot classifies to `None`, or `MAX_OPERANDS` when the loop exhausts;
a classifier panic propagates. -/
def numOpsLoop (i : Instruction) : List Nat → Option Nat
  | [] => some MAX_OPERANDS
  | n :: rest =>
    match i.operand n with
    | none => none
    | some none => some n
    | some (some _) => numOpsLoop i rest

/-- `Instruction::num_operands` of `lib.rs`. -/
def Instruction.num_operands (i : Instruction) : Option Nat :=
  numOpsLoop i (List.range MAX_OPERANDS)

/-- `Instruction::operation` of `lib.rs`: assert the raw operation code is
not the `0` sentinel, then unwrap the catalog lookup; either failure is a
panic (`none`). -/
def Instruction.operation (i : Instruction) : Option Operation :=
  if i.inner.operation = 0 then none
  else
    match Operation.from_u32 i.inner.operation with
    | some op => some op
    | none => none

/-- One pull of the `iter::from_fn` iterator of `Instruction::operands` of
`lib.rs`: from closure state `n`, yield `operand n` and increment the
state unconditionally. -/
def Instruction.operandsNext (i : Instruction) (n : Nat) : Option (Option Operand) × Nat :=
  (i.operand n, n + 1)

/-- Closure state of a fresh `operands()` iterator after `k` pulls
(a fresh iterator starts at state `0`). -/
def Instruction.operandsStateAfter (i : Instruction) : Nat → Nat
  | 0 => 0
  | k + 1 => (i.operandsNext (i.operandsStateAfter k)).2

/-- Result of the `(k+1)`-th pull of a fresh `operands()` iterator. -/
def Instruction.operandsPull (i : Instruction) (k : Nat) : Option (Option Operand) :=
  (i.operandsNext (i.operandsStateAfter k)).1

/-- Contents a consumer collects from the `operands()` iterator starting at
closure state `n`: elements until the first `None` yield (the `from_fn`
stopping point), with a classifier panic propagating. -/
def collectOperandsFrom (i : Instruction) (n : Nat) : Option (List Operand) :=
  match h : i.operand n with
  | none => none
  | some none => some []
  | some (some o) =>
    match collectOperandsFrom i (n + 1) with
    | none => none
    | some l => some (o :: l)
termination_by MAX_OPERANDS + 1 - n
decreasing_by
  rcases Nat.lt_or_ge n MAX_OPERANDS with hn | hn
  · omega
  · rw [Instruction.operand, if_pos hn] at h
    cases h

/-- Contents of one full consumption of a fresh `operands()` iterator. -/
def Instruction.operandsList (i : Instruction) : Option (List Operand) :=
  collectOperandsFrom i 0

/-- `enum DecodeError` of `lib.rs`. -/
inductive DecodeError where
  | Reserved
  | Unmatched
  | Unallocated
  | Undefined
  | EndOfInstruction
  | Lost
  | Unreachable
  | Short
deriving DecidableEq

/-- Decidable equality of `Except` results, for evaluating the embedding
on concrete inputs. -/
instance {ε α : Type} [DecidableEq ε] [DecidableEq α] : DecidableEq (Except ε α) := fun x y =>
  match x, y with
  | .ok a, .ok b =>
    if h : a = b then isTrue (by rw [h])
    else isFalse (by intro hc; cases hc; exact h rfl)
  | .ok _, .error _ => isFalse (by intro hc; cases hc)
  | .error _, .ok _ => isFalse (by intro hc; cases hc)
  | .error a, .error b =>
    if h : a = b then isTrue (by rw [h])
    else isFalse (by intro hc; cases hc; exact h rfl)

/-- The derived `DecodeError::from_i32` of `lib.rs`. The numeric values of
the first seven variants are the `DECODE_STATUS_*` constants of the
external `bad64-sys` crate (`-1 .. -7`); `Short = -8` is introduced by
`lib.rs` itself and corresponds to no external decoder status. -/
def DecodeError.from_i32 (r : Int) : Option DecodeError :=
  if r = -1 then some .Reserved
  else if r = -2 then some .Unmatched
  else if r = -3 then some .Unallocated
  else if r = -4 then some .Undefined
  else if r = -5 then some .EndOfInstruction
  else if r = -6 then some .Lost
  else if r = -7 then some .Unreachable
  else if r = -8 then some .Short
  else none

/-- The external decoder boundary `aarch64_decompose`, an excluded
collaborator: a black-box function `(word, address) -> (status, record)`,
with status `0` denoting success. -/
abbrev Decoder := Nat → Nat → Int × RawInstruction

/-- `decode` of `lib.rs`, parameterized by the external decoder: status `0`
wraps the raw record with the caller's address; a nonzero status maps
through `DecodeError::from_i32`, whose `unwrap` panics (`none`) on an
unmapped status. -/
def decode (d : Decoder) (ins : Nat) (address : Nat) : Option (Except DecodeError Instruction) :=
  if (d ins address).1 = 0 then
    some (Except.ok { address := address, inner := (d ins address).2 })
  else
    match DecodeError.from_i32 (d ins address).1 with
    | some e => some (Except.error e)
    | none => none

/-- The `map_err` adapter of `disassemble`: pair a decode error with the
window's address. -/
def pair_err (addr : Nat) : Except DecodeError Instruction → Except (Nat × DecodeError) Instruction
  | .ok i => .ok i
  | .error e => .error (addr, e)

/-- `u32::from_le_bytes` on a 4-byte window (bytes are `u8` values). -/
def leU32 (bytes : List Nat) : Nat :=
  bytes.getD 0 0 + 256 * bytes.getD 1 0 + 65536 * bytes.getD 2 0 +
    16777216 * bytes.getD 3 0

/-- The per-window closure of `disassemble` of `lib.rs`: a full 4-byte
window (`try_into` succeeds) is decoded as a little-endian `u32` at the
window's address with errors paired with that address; a short window
yields `Err((address, Short))`. The outer `none` is a decode panic. -/
def disasmItem (d : Decoder) (addr : Nat) (bytes : List Nat) :
    Option (Except (Nat × DecodeError) Instruction) :=
  if bytes.length = 4 then
    Option.map (pair_err addr) (decode d (leU32 bytes) addr)
  else some (Except.error (addr, DecodeError.Short))

/-- `slice::chunks(4)`: consecutive 4-byte windows from offset `0`, the
last window possibly short (1 to 3 bytes); an empty slice has no windows. -/
def chunks4 : List Nat → List (List Nat)
  | [] => []
  | [a] => [[a]]
  | [a, b] => [[a, b]]
  | [a, b, c] => [[a, b, c]]
  | a :: b :: c :: e :: rest => [a, b, c, e] :: chunks4 rest

/-- The address cursor of `disassemble`: `(address ..).step_by(4)` advances
the `u64` cursor by 4 per window, wrapping modulo `2 ^ 64`. -/
def stepAddr (a : Nat) : Nat := (a + 4) % U64_SIZE

/-- The zipped-and-mapped body of `disassemble`: one item per window, the
cursor advancing by 4 between windows. -/
def disassembleFrom (d : Decoder) (addr : Nat) :
    List (List Nat) → List (Option (Except (Nat × DecodeError) Instruction))
  | [] => []
  | c :: cs => disasmItem d addr c :: disassembleFrom d (stepAddr addr) cs

/-- `disassemble` of `lib.rs`, parameterized by the external decoder: the
finite sequence of per-window results (each item `Option`-lifted, the
outer `none` standing for a pull that panics). -/
def disassemble (d : Decoder) (code : List Nat) (address : Nat) :
    List (Option (Except (Nat × DecodeError) Instruction)) :=
  disassembleFrom d address (chunks4 code)

/-- Value of the address cursor after `i` windows. -/
def addrAt (a : Nat) : Nat → Nat
  | 0 => a
  | k + 1 => addrAt (stepAddr a) k

/-- A raw register operand slot (concrete test data). -/
def sampleRegSlot : RawOperand :=
  { operandClass := 1, reg0 := 1, reg1 := 0, immNeg := false, immVal := 0,
    shiftType := 0, shiftValue := 0, sysreg := 0 }

/-- A raw immediate operand slot (concrete test data). -/
def sampleImmSlot : RawOperand :=
  { operandClass := 2, reg0 := 0, reg1 := 0, immNeg := false, immVal := 65,
    shiftType := 0, shiftValue := 0, sysreg := 0 }

/-- A raw operand slot with an unrecognized non-empty discriminant
(concrete test data). -/
def sampleBadSlot : RawOperand :=
  { operandClass := 9, reg0 := 0, reg1 := 0, immNeg := false, immVal := 0,
    shiftType := 0, shiftValue := 0, sysreg := 0 }

/-- A well-formed raw record with two operands (concrete test data). -/
def sampleRecord : RawInstruction :=
  { operation := 5, operands := [sampleRegSlot, sampleImmSlot] }

/-- An instruction wrapping `sampleRecord` (concrete test data). -/
def sampleIns : Instruction := { address := 4096, inner := sampleRecord }

/-- An instruction whose record violates the contiguous-run convention: an
empty slot 0 followed by a populated slot 1 (concrete test data). -/
def sampleNC : Instruction :=
  { address := 4096,
    inner := { operation := 5, operands := [RawOperand.zeroed, sampleRegSlot] } }

/-- An instruction whose record carries `sampleBadSlot` at slot 0
(concrete test data). -/
def sampleBadIns : Instruction :=
  { address := 4096, inner := { operation := 5, operands := [sampleBadSlot] } }

/-- An instruction whose raw operation code is the `0` sentinel
(concrete test data). -/
def sampleZeroOpIns : Instruction :=
  { address := 4096, inner := { operation := 0, operands := [] } }

/-- A decoder stub that always succeeds with `sampleRecord`. -/
def decOk : Decoder := fun _ _ => (0, sampleRecord)

/-- A decoder stub that always fails with the mapped status `-4`
(`Undefined`). -/
def decUndef : Decoder := fun _ _ => (-4, sampleRecord)

/-- A decoder stub that always returns the unmapped status `-100`. -/
def decRogue : Decoder := fun _ _ => (-100, sampleRecord)

theorem operand_ge_max (i : Instruction) (n : Nat) (h : MAX_OPERANDS ≤ n) :
    i.operand n = some none := by
  rw [Instruction.operand, if_pos h]

theorem operand_none_lt (i : Instruction) (n : Nat) (h : i.operand n = none) :
    n < MAX_OPERANDS := by
  rcases Nat.lt_or_ge n MAX_OPERANDS with hn | hn
  · exact hn
  · rw [operand_ge_max i n hn] at h
    cases h

theorem numOpsLoop_range' (i : Instruction) :
    ∀ (c n : Nat), n + c = MAX_OPERANDS →
      ∀ m, numOpsLoop i (List.range' n c) = some m →
        m ≤ MAX_OPERANDS ∧ i.operand m = some none ∧
        ∀ k, n ≤ k → k < m → ∃ o, i.operand k = some (some o) := by
  intro c
  induction c with
  | zero =>
    intro n hn m hm
    change numOpsLoop i [] = some m at hm
    simp only [numOpsLoop, Option.some.injEq] at hm
    subst hm
    refine ⟨Nat.le_refl _, operand_ge_max i _ (Nat.le_refl _), ?_⟩
    intro k hk1 hk2
    omega
  | succ c ih =>
    intro n hn m hm
    rw [List.range'_succ] at hm
    cases heq : i.operand n with
    | none => rw [numOpsLoop, heq] at hm; cases hm
    | some oo =>
      cases oo with
      | none =>
        rw [numOpsLoop, heq] at hm
        simp only [Option.some.injEq] at hm
        subst hm
        refine ⟨by omega, heq, ?_⟩
        intro k hk1 hk2
        omega
      | some o =>
        rw [numOpsLoop, heq] at hm
        obtain ⟨h1, h2, h3⟩ := ih (n + 1) (by omega) m hm
        refine ⟨h1, h2, ?_⟩
        intro k hk1 hk2
        rcases Nat.eq_or_lt_of_le hk1 with hk | hk
        · exact ⟨o, hk ▸ heq⟩
        · exact h3 k hk hk2

theorem numOpsLoop_isSome (i : Instruction)
    (hf : ∀ k, k < MAX_OPERANDS → i.operand k ≠ none) :
    ∀ (c n : Nat), n + c = MAX_OPERANDS → (numOpsLoop i (List.range' n c)).isSome := by
  intro c
  induction c with
  | zero =>
    intro n hn
    change (numOpsLoop i []).isSome
    rfl
  | succ c ih =>
    intro n hn
    rw [List.range'_succ]
    cases heq : i.operand n with
    | none => exact absurd heq (hf n (by omega))
    | some oo =>
      cases oo with
      | none => rw [numOpsLoop, heq]; rfl
      | some o => rw [numOpsLoop, heq]; exact ih (n + 1) (by omega)

theorem num_operands_some (i : Instruction) (m : Nat) (hm : i.num_operands = some m) :
    m ≤ MAX_OPERANDS ∧ i.operand m = some none ∧
      ∀ k, k < m → ∃ o, i.operand k = some (some o) := by
  rw [Instruction.num_operands, List.range_eq_range'] at hm
  obtain ⟨h1, h2, h3⟩ := numOpsLoop_range' i MAX_OPERANDS 0 (by omega) m hm
  exact ⟨h1, h2, fun k hk => h3 k (Nat.zero_le k) hk⟩

theorem num_operands_isSome (i : Instruction)
    (hf : ∀ k, k < MAX_OPERANDS → i.operand k ≠ none) :
    (i.num_operands).isSome := by
  rw [Instruction.num_operands, List.range_eq_range']
  exact numOpsLoop_isSome i hf MAX_OPERANDS 0 (by omega)

theorem operandsStateAfter_eq (i : Instruction) (k : Nat) :
    i.operandsStateAfter k = k := by
  induction k with
  | zero => rfl
  | succ k ih => simp [Instruction.operandsStateAfter, Instruction.operandsNext, ih]

theorem collectOperandsFrom_none (i : Instruction) (n : Nat) (h : i.operand n = none) :
    collectOperandsFrom i n = none := by
  rw [collectOperandsFrom.eq_def]
  split <;> simp_all

theorem collectOperandsFrom_empty (i : Instruction) (n : Nat) (h : i.operand n = some none) :
    collectOperandsFrom i n = some [] := by
  rw [collectOperandsFrom.eq_def]
  split <;> simp_all

theorem collectOperandsFrom_cons (i : Instruction) (n : Nat) (o : Operand)
    (h : i.operand n = some (some o)) :
    collectOperandsFrom i n =
      match collectOperandsFrom i (n + 1) with
      | none => none
      | some l => some (o :: l) := by
  rw [collectOperandsFrom.eq_def]
  split <;> simp_all

theorem collectOperandsFrom_spec (i : Instruction)
    (hf : ∀ k, k < MAX_OPERANDS → i.operand k ≠ none) (n : Nat) :
    ∃ l, collectOperandsFrom i n = some l ∧
      (∀ j, ∀ hj : j < l.length, i.operand (n + j) = some (some (l.get ⟨j, hj⟩))) ∧
      i.operand (n + l.length) = some none := by
  induction n using collectOperandsFrom.induct with
  | i => exact i
  | case1 n heq => exact absurd heq (hf n (operand_none_lt i n heq))
  | case2 n heq =>
    refine ⟨[], collectOperandsFrom_empty i n heq, ?_, by simpa using heq⟩
    intro j hj
    exact absurd hj (Nat.not_lt_zero j)
  | case3 n o heq hrec ih =>
    obtain ⟨l, hl, _⟩ := ih
    rw [hl] at hrec
    cases hrec
  | case4 n o heq l hrec ih =>
    obtain ⟨l2, hl2, hget, hterm⟩ := ih
    rw [hl2] at hrec
    cases hrec
    refine ⟨o :: l, ?_, ?_, ?_⟩
    · rw [collectOperandsFrom_cons i n o heq, hl2]
    · intro j hj
      cases j with
      | zero => simpa using heq
      | succ j2 =>
        have harith : n + (j2 + 1) = (n + 1) + j2 := by omega
        rw [harith]
        exact hget j2 (by simpa using hj)
    · have harith : n + (o :: l).length = (n + 1) + l.length := by
        simp only [List.length_cons]
        omega
      rw [harith]
      exact hterm

theorem chunks4_length (l : List Nat) : (chunks4 l).length = (l.length + 3) / 4 := by
  induction l using chunks4.induct with
  | case1 => simp [chunks4]
  | case2 a => simp only [chunks4, List.length_cons, List.length_nil]
  | case3 a b => simp only [chunks4, List.length_cons, List.length_nil]
  | case4 a b c => simp only [chunks4, List.length_cons, List.length_nil]
  | case5 a b c e rest ih =>
    simp only [chunks4, List.length_cons, ih]
    omega

theorem chunks4_getElem (l : List Nat) : ∀ i : Nat,
    (chunks4 l)[i]? = if 4 * i < l.length then some ((l.drop (4 * i)).take 4) else none := by
  induction l using chunks4.induct with
  | case1 =>
    intro i
    rw [if_neg (by simp only [List.length_nil]; omega)]
    simp [chunks4]
  | case2 a =>
    intro i
    cases i with
    | zero =>
      rw [if_pos (by simp only [List.length_cons, List.length_nil]; omega)]
      simp only [chunks4, List.getElem?_cons_zero]
      rfl
    | succ j =>
      rw [if_neg (by simp only [List.length_cons, List.length_nil]; omega)]
      simp [chunks4]
  | case3 a b =>
    intro i
    cases i with
    | zero =>
      rw [if_pos (by simp only [List.length_cons, List.length_nil]; omega)]
      simp only [chunks4, List.getElem?_cons_zero]
      rfl
    | succ j =>
      rw [if_neg (by simp only [List.length_cons, List.length_nil]; omega)]
      simp [chunks4]
  | case4 a b c =>
    intro i
    cases i with
    | zero =>
      rw [if_pos (by simp only [List.length_cons, List.length_nil]; omega)]
      simp only [chunks4, List.getElem?_cons_zero]
      rfl
    | succ j =>
      rw [if_neg (by simp only [List.length_cons, List.length_nil]; omega)]
      simp [chunks4]
  | case5 a b c e rest ih =>
    intro i
    cases i with
    | zero =>
      rw [if_pos (by simp only [List.length_cons]; omega)]
      simp only [chunks4, List.getElem?_cons_zero]
      rfl
    | succ j =>
      have hdrop : (a :: b :: c :: e :: rest).drop (4 * (j + 1)) = rest.drop (4 * j) := by
        have h1 : 4 * (j + 1) = 4 + 4 * j := by omega
        rw [h1, ← List.drop_drop]
        rfl
      simp only [chunks4, List.getElem?_cons_succ]
      rw [ih j, hdrop]
      simp only [List.length_cons]
      by_cases hc : 4 * j < rest.length
      · rw [if_pos hc, if_pos (by omega)]
      · rw [if_neg hc, if_neg (by omega)]

theorem disassembleFrom_length (d : Decoder) :
    ∀ (cs : List (List Nat)) (a : Nat), (disassembleFrom d a cs).length = cs.length := by
  intro cs
  induction cs with
  | nil => intro a; rfl
  | cons c cs ih =>
    intro a
    simp only [disassembleFrom, List.length_cons, ih]

theorem disassembleFrom_getElem (d : Decoder) :
    ∀ (cs : List (List Nat)) (a i : Nat),
      (disassembleFrom d a cs)[i]? = Option.map (disasmItem d (addrAt a i)) cs[i]? := by
  intro cs
  induction cs with
  | nil =>
    intro a i
    simp [disassembleFrom]
  | cons c cs ih =>
    intro a i
    cases i with
    | zero => simp [disassembleFrom, addrAt]
    | succ j =>
      simp only [disassembleFrom, List.getElem?_cons_succ]
      rw [ih (stepAddr a) j]
      rfl

theorem addrAt_eq (i : Nat) : ∀ a : Nat, a + 4 * i < U64_SIZE → addrAt a i = a + 4 * i := by
  induction i with
  | zero =>
    intro a h
    simp [addrAt]
  | succ j ih =>
    intro a h
    have hs : stepAddr a = a + 4 := by
      rw [stepAddr]
      exact Nat.mod_eq_of_lt (by omega)
    change addrAt (stepAddr a) j = a + 4 * (j + 1)
    rw [hs, ih (a + 4) (by omega)]
    omega

theorem from_i32_short (r : Int) (h : DecodeError.from_i32 r = some DecodeError.Short) :
    r = -8 := by
  rw [DecodeError.from_i32] at h
  split_ifs at h <;> simp_all

theorem decode_ok_of_status (d : Decoder) (w a : Nat) (h : (d w a).1 = 0) :
    decode d w a = some (Except.ok { address := a, inner := (d w a).2 }) := by
  rw [decode]
  simp [h]

theorem decode_err_of_status (d : Decoder) (w a : Nat) (h : (d w a).1 ≠ 0) :
    decode d w a = Option.map Except.error (DecodeError.from_i32 (d w a).1) := by
  rw [decode]
  simp only [if_neg h]
  cases hfi : DecodeError.from_i32 (d w a).1 <;> simp [hfi]

theorem decode_error_from (d : Decoder) (w a : Nat) (e : DecodeError)
    (h : decode d w a = some (Except.error e)) :
    DecodeError.from_i32 (d w a).1 = some e ∧ (d w a).1 ≠ 0 := by
  by_cases h0 : (d w a).1 = 0
  · rw [decode_ok_of_status d w a h0] at h
    simp at h
  · rw [decode_err_of_status d w a h0] at h
    cases hfi : DecodeError.from_i32 (d w a).1 with
    | none => rw [hfi] at h; cases h
    | some e2 =>
      rw [hfi] at h
      rw [Option.map_some'] at h
      injection h with h2
      injection h2 with h3
      subst h3
      exact ⟨rfl, h0⟩

theorem decode_isSome (d : Decoder) (w a : Nat)
    (h : (d w a).1 = 0 ∨ (DecodeError.from_i32 (d w a).1).isSome) :
    (decode d w a).isSome := by
  by_cases h0 : (d w a).1 = 0
  · rw [decode_ok_of_status d w a h0]
    rfl
  · rw [decode_err_of_status d w a h0]
    cases hfi : DecodeError.from_i32 (d w a).1 with
    | none =>
      rcases h with h | h
      · exact absurd h h0
      · rw [hfi] at h
        simp at h
    | some e => rfl

theorem disasmItem_ne_none (d : Decoder)
    (hmapped : ∀ w a2, (d w a2).1 = 0 ∨ (DecodeError.from_i32 (d w a2).1).isSome)
    (addr : Nat) (bytes : List Nat) : disasmItem d addr bytes ≠ none := by
  rw [disasmItem]
  split_ifs with hlen
  · intro hcon
    rw [Option.map_eq_none'] at hcon
    have hs := decode_isSome d (leU32 bytes) addr (hmapped _ _)
    rw [hcon] at hs
    cases hs
  · simp

/-- Claim C1: for every word and address, `decode` returns `Ok` exactly when
the external decoder's status is `0`, and the returned `Instruction` wraps
the decoder's raw record together with the caller-supplied address; every
nonzero status is mapped through the `DecodeError` catalog (`from_i32`),
and an unmapped nonzero status is a fatal `unwrap` panic (the outer
`none`), never a returned value. -/
theorem decode_status_contract (d : Decoder) (w a : Nat) :
    ((∃ i, decode d w a = some (Except.ok i)) ↔ (d w a).1 = 0)
    ∧ ((d w a).1 = 0 →
        decode d w a = some (Except.ok { address := a, inner := (d w a).2 }))
    ∧ ((d w a).1 ≠ 0 →
        decode d w a = Option.map Except.error (DecodeError.from_i32 (d w a).1))
    ∧ (∀ i, decode d w a = some (Except.ok i) → i.address = a ∧ i.inner = (d w a).2) := by
  refine ⟨⟨?_, ?_⟩, decode_ok_of_status d w a, decode_err_of_status d w a, ?_⟩
  · rintro ⟨i, hi⟩
    by_cases h0 : (d w a).1 = 0
    · exact h0
    · rw [decode_err_of_status d w a h0] at hi
      cases hfi : DecodeError.from_i32 (d w a).1 <;> rw [hfi] at hi <;> simp at hi
  · intro h0
    exact ⟨_, decode_ok_of_status d w a h0⟩
  · intro i hi
    by_cases h0 : (d w a).1 = 0
    · rw [decode_ok_of_status d w a h0] at hi
      simp only [Option.some.injEq, Except.ok.injEq] at hi
      rw [← hi]
      exact ⟨rfl, rfl⟩
    · rw [decode_err_of_status d w a h0] at hi
      cases hfi : DecodeError.from_i32 (d w a).1 <;> rw [hfi] at hi <;> simp at hi

/-- Concrete instantiation of `decode_status_contract`: a succeeding
decoder, a decoder failing with the mapped status `-4`, and a decoder
returning the unmapped status `-100` (a panic). -/
theorem decode_status_contract_witness :
    decode decOk 100 4096 = some (Except.ok { address := 4096, inner := sampleRecord })
    ∧ decode decUndef 100 4096 = some (Except.error DecodeError.Undefined)
    ∧ decode decRogue 100 4096 = none := by
  refine ⟨?_, ?_, ?_⟩
  · exact (decode_status_contract decOk 100 4096).2.1 rfl
  · exact ((decode_status_contract decUndef 100 4096).2.2.1 (by decide)).trans (by decide)
  · exact ((decode_status_contract decRogue 100 4096).2.2.1 (by decide)).trans (by decide)

/-- Claim C2: for every byte slice and start address (within the `u64`
range of the window addresses, and for a decoder honouring its status
contract: it never emits the binding-introduced code `-8` and every
nonzero status it emits is mapped), the `disassemble` sequence has exactly
`ceil(len/4)` items, none of which panics; and when `len` is not a
multiple of 4 the last item (and only the last) is
`Err((start_address + 4*floor(len/4), Short))`, there being no items after
it. -/
theorem disassemble_length_and_short (d : Decoder) (code : List Nat) (address : Nat)
    (haddr : address + 4 * ((code.length + 3) / 4) < U64_SIZE)
    (hnoshort : ∀ w a2, (d w a2).1 ≠ -8)
    (hmapped : ∀ w a2, (d w a2).1 = 0 ∨ (DecodeError.from_i32 (d w a2).1).isSome) :
    (disassemble d code address).length = (code.length + 3) / 4
    ∧ (∀ j : Nat, (disassemble d code address)[j]? ≠ some none)
    ∧ (code.length % 4 ≠ 0 →
        (disassemble d code address)[(code.length + 3) / 4 - 1]? =
          some (some (Except.error (address + 4 * (code.length / 4), DecodeError.Short)))
        ∧ ∀ (j x : Nat), j + 1 < (disassemble d code address).length →
            (disassemble d code address)[j]? ≠
              some (some (Except.error (x, DecodeError.Short)))) := by
  have hlen : (disassemble d code address).length = (code.length + 3) / 4 := by
    rw [disassemble, disassembleFrom_length, chunks4_length]
  refine ⟨hlen, ?_, ?_⟩
  · intro j hcon
    rw [disassemble, disassembleFrom_getElem, chunks4_getElem] at hcon
    by_cases hc : 4 * j < code.length
    · rw [if_pos hc, Option.map_some'] at hcon
      injection hcon with hcon
      exact disasmItem_ne_none d hmapped _ _ hcon
    · rw [if_neg hc] at hcon
      simp at hcon
  · intro hmod
    constructor
    · rw [disassemble, disassembleFrom_getElem, chunks4_getElem,
        if_pos (by omega), Option.map_some']
      have hchunklen : ((code.drop (4 * ((code.length + 3) / 4 - 1))).take 4).length ≠ 4 := by
        simp only [List.length_take, List.length_drop]
        omega
      rw [disasmItem, if_neg hchunklen,
        addrAt_eq ((code.length + 3) / 4 - 1) address (by omega)]
      have heq : (code.length + 3) / 4 - 1 = code.length / 4 := by omega
      rw [heq]
    · intro j x hj hcon
      rw [hlen] at hj
      have hfull : 4 * j + 4 ≤ code.length := by omega
      rw [disassemble, disassembleFrom_getElem, chunks4_getElem,
        if_pos (by omega), Option.map_some'] at hcon
      injection hcon with hcon
      have hchunklen : ((code.drop (4 * j)).take 4).length = 4 := by
        simp only [List.length_take, List.length_drop]
        omega
      rw [disasmItem, if_pos hchunklen] at hcon
      cases hdec : decode d (leU32 ((code.drop (4 * j)).take 4)) (addrAt address j) with
      | none =>
        rw [hdec] at hcon
        simp at hcon
      | some res =>
        rw [hdec, Option.map_some'] at hcon
        injection hcon with hc2
        cases res with
        | ok v => simp [pair_err] at hc2
        | error e =>
          simp only [pair_err] at hc2
          injection hc2 with hc3
          injection hc3 with hc4 hc5
          obtain ⟨hfi, hnz⟩ := decode_error_from d _ _ e hdec
          rw [hc5] at hfi
          exact hnoshort _ _ (from_i32_short _ hfi)

/-- Concrete instantiation of `disassemble_length_and_short` on a 5-byte
buffer: two items, the last being the trailing `Short` error at the
second window's address. -/
theorem disassemble_length_and_short_witness :
    (disassemble decOk [31, 32, 3, 213, 0] 4096).length = 2
    ∧ (disassemble decOk [31, 32, 3, 213, 0] 4096)[1]? =
        some (some (Except.error (4100, DecodeError.Short))) := by
  have h := disassemble_length_and_short decOk [31, 32, 3, 213, 0] 4096
    (by decide) (fun w a2 => show (0 : Int) ≠ -8 by decide) (fun w a2 => Or.inl rfl)
  refine ⟨h.1, ?_⟩
  have h2 := (h.2.2 (by decide)).1
  simpa using h2

/-- Claim C3: for every byte slice, start address and full 4-byte window
`i`, item `i` of the `disassemble` sequence equals the result of `decode`
on the little-endian `u32` of bytes `4*i .. 4*i+4` at address
`start_address + 4*i`, unchanged except that a decode error is paired with
the window's address; and a failed window never stops the sequence: an
item `i+1` within the sequence length is still produced. -/
theorem disassemble_full_window (d : Decoder) (code : List Nat) (address : Nat) (i : Nat)
    (hfull : 4 * i + 4 ≤ code.length) (haddr : address + 4 * i < U64_SIZE) :
    (disassemble d code address)[i]? =
      some (Option.map (pair_err (address + 4 * i))
        (decode d (leU32 ((code.drop (4 * i)).take 4)) (address + 4 * i)))
    ∧ (i + 1 < (disassemble d code address).length →
        ((disassemble d code address)[i + 1]?).isSome) := by
  constructor
  · rw [disassemble, disassembleFrom_getElem, chunks4_getElem, if_pos (by omega),
      addrAt_eq i address haddr, Option.map_some']
    have hchunklen : ((code.drop (4 * i)).take 4).length = 4 := by
      simp only [List.length_take, List.length_drop]
      omega
    rw [disasmItem, if_pos hchunklen]
  · intro hlt
    rw [List.getElem?_eq_getElem hlt]
    rfl

/-- Concrete instantiation of `disassemble_full_window`: the second full
window of an 8-byte buffer decodes at address `0x1004`. -/
theorem disassemble_full_window_witness :
    (disassemble decOk [1, 2, 3, 4, 5, 6, 7, 8] 4096)[1]? =
      some (some (Except.ok { address := 4100, inner := sampleRecord })) := by
  have h := (disassemble_full_window decOk [1, 2, 3, 4, 5, 6, 7, 8] 4096 1
    (by decide) (by decide)).1
  rw [h]
  decide

/-- Claim C4: for every instruction whose slots satisfy the decoder's
contiguous-run contract (no populated slot after an empty one, the
documented invariant of every successfully decoded record), `operand n`
returns `None` for every `n ≥ num_operands`. -/
theorem operand_none_from_num_operands (i : Instruction) (m : Nat)
    (hm : i.num_operands = some m)
    (hc : ∀ n, n < MAX_OPERANDS → i.operand n = some none →
      i.operand (n + 1) = some none) :
    ∀ n, m ≤ n → i.operand n = some none := by
  have hstep : ∀ k, i.operand k = some none → i.operand (k + 1) = some none := by
    intro k hk
    rcases Nat.lt_or_ge k MAX_OPERANDS with h1 | h1
    · exact hc k h1 hk
    · exact operand_ge_max i (k + 1) (by omega)
  obtain ⟨h1, h2, h3⟩ := num_operands_some i m hm
  intro n hn
  induction n, hn using Nat.le_induction with
  | base => exact h2
  | succ n hn ih => exact hstep n ih

/-- Concrete instantiation of `operand_none_from_num_operands`: the sample
instruction has two operands and slots 2 and 3 classify to `None`. -/
theorem operand_none_from_num_operands_witness :
    sampleIns.operand 2 = some none ∧ sampleIns.operand 3 = some none := by
  have h := operand_none_from_num_operands sampleIns 2 (by decide)
    (by decide)
  exact ⟨h 2 (by decide), h 3 (by decide)⟩

/-- Claim C5: for every instruction and index `n`, `operand n` returns
`None` whenever `n ≥ MAX_OPERANDS` (the bounds check against the fixed
slot capacity), and for `n < MAX_OPERANDS` it returns exactly the Operand
Classifier's result for raw slot `n` (through the `.ok()` adapter, so
`None` at the empty sentinel). -/
theorem operand_bounds_and_classifier (i : Instruction) (n : Nat) :
    (MAX_OPERANDS ≤ n → i.operand n = some none)
    ∧ (n < MAX_OPERANDS →
        i.operand n =
          okLift (Operand.try_from (i.inner.operands.getD n RawOperand.zeroed))) := by
  constructor
  · exact operand_ge_max i n
  · intro h
    rw [Instruction.operand, if_neg (by omega)]

/-- Concrete instantiation of `operand_bounds_and_classifier`: out-of-range
index 7 yields `None`; index 0 yields the classifier's result. -/
theorem operand_bounds_and_classifier_witness :
    sampleIns.operand 7 = some none
    ∧ sampleIns.operand 0 =
        okLift (Operand.try_from (sampleIns.inner.operands.getD 0 RawOperand.zeroed)) :=
  ⟨(operand_bounds_and_classifier sampleIns 7).1 (by decide),
   (operand_bounds_and_classifier sampleIns 0).2 (by decide)⟩

/-- Claim C6: a raw operand slot whose discriminant is non-empty but
unrecognized (no `Operand` variant, here any discriminant `≥ 9`) makes the
classifier fatal (a panic, the outer `none` of `operand`), not a
recoverable value: `operand n` on such a slot does not simply return
`None` (`some none`). -/
theorem unrecognized_discriminant_fatal (r : RawOperand) (hcls : 9 ≤ r.operandClass)
    (i : Instruction) (n : Nat) (hn : n < MAX_OPERANDS)
    (hslot : i.inner.operands.getD n RawOperand.zeroed = r) :
    Operand.try_from r = OperandClassResult.fatal
    ∧ i.operand n = none ∧ i.operand n ≠ some none := by
  have hfatal : Operand.try_from r = OperandClassResult.fatal := by
    obtain ⟨k, hk⟩ : ∃ k, r.operandClass = k + 9 := ⟨r.operandClass - 9, by omega⟩
    rw [Operand.try_from.eq_def, hk]
    rfl
  have hop : i.operand n = none := by
    rw [Instruction.operand, if_neg (by omega), hslot, hfatal]
    rfl
  exact ⟨hfatal, hop, by simp [hop]⟩

/-- Concrete instantiation of `unrecognized_discriminant_fatal` at
discriminant 9 in slot 0. -/
theorem unrecognized_discriminant_fatal_witness :
    Operand.try_from sampleBadSlot = OperandClassResult.fatal
    ∧ sampleBadIns.operand 0 = none ∧ sampleBadIns.operand 0 ≠ some none :=
  unrecognized_discriminant_fatal sampleBadSlot (by decide) sampleBadIns 0
    (by decide) (by decide)

/-- Claim C7: for every instruction (whose slots all classify without a
panic), `num_operands` returns the smallest `n < MAX_OPERANDS` whose slot
classifies to `None`, and `MAX_OPERANDS` when no such `n` exists; in
particular the result is always at most `MAX_OPERANDS`. -/
theorem num_operands_first_none (i : Instruction)
    (hf : ∀ k, k < MAX_OPERANDS → i.operand k ≠ none) :
    ∃ m, i.num_operands = some m ∧ m ≤ MAX_OPERANDS ∧ i.operand m = some none ∧
      ∀ k, k < m → ∃ o, i.operand k = some (some o) := by
  have hs := num_operands_isSome i hf
  obtain ⟨m, hm⟩ := Option.isSome_iff_exists.mp hs
  obtain ⟨h1, h2, h3⟩ := num_operands_some i m hm
  exact ⟨m, hm, h1, h2, h3⟩

/-- Concrete instantiation of `num_operands_first_none` on the sample
instruction. -/
theorem num_operands_first_none_witness :
    ∃ m, sampleIns.num_operands = some m ∧ m ≤ MAX_OPERANDS ∧
      sampleIns.operand m = some none ∧
      ∀ k, k < m → ∃ o, sampleIns.operand k = some (some o) :=
  num_operands_first_none sampleIns (by decide)

/-- Claim C8: `operation` asserts that the raw operation code is not the
`0` sentinel (an assertion failure is a panic, `none`) and returns the
catalog's symbol; under the precondition that the code is a valid nonzero
operation code, neither the assertion nor the catalog `unwrap` fails. -/
theorem operation_assert_and_catalog (i : Instruction) :
    (i.inner.operation = 0 → i.operation = none)
    ∧ (∀ op, i.inner.operation ≠ 0 → Operation.from_u32 i.inner.operation = some op →
        i.operation = some op) := by
  constructor
  · intro h
    rw [Instruction.operation, if_pos h]
  · intro op h hc
    rw [Instruction.operation, if_neg h, hc]

/-- Concrete instantiation of `operation_assert_and_catalog`: the zero
sentinel panics; code 5 maps through the catalog. -/
theorem operation_assert_and_catalog_witness :
    sampleZeroOpIns.operation = none ∧ sampleIns.operation = some ⟨5⟩ :=
  ⟨(operation_assert_and_catalog sampleZeroOpIns).1 rfl,
   (operation_assert_and_catalog sampleIns).2 ⟨5⟩ (by decide) (by decide)⟩

/-- Claim C9: for every instruction (whose slots all classify without a
panic), one full consumption of the `operands()` sequence yields the
operands of slots `0, 1, ...` in order, terminating exactly at the first
empty slot and hence finite (at most `MAX_OPERANDS` items); the sequence
is a pure function of the instruction, so any two calls yield identical
contents and consuming one does not affect the other. -/
theorem operands_iterator_contents (i : Instruction)
    (hf : ∀ k, k < MAX_OPERANDS → i.operand k ≠ none) :
    ∃ l, i.operandsList = some l ∧ l.length ≤ MAX_OPERANDS ∧
      (∀ j, ∀ hj : j < l.length, i.operand j = some (some (l.get ⟨j, hj⟩))) ∧
      i.operand l.length = some none := by
  obtain ⟨l, hl, hget, hterm⟩ := collectOperandsFrom_spec i hf 0
  refine ⟨l, hl, ?_, ?_, by simpa using hterm⟩
  · by_contra hlen
    push_neg at hlen
    have h5 := hget MAX_OPERANDS hlen
    rw [Nat.zero_add] at h5
    rw [operand_ge_max i MAX_OPERANDS (Nat.le_refl _)] at h5
    simp at h5
  · intro j hj
    have h6 := hget j hj
    rw [Nat.zero_add] at h6
    exact h6

/-- Concrete instantiation of `operands_iterator_contents` on the sample
instruction. -/
theorem operands_iterator_contents_witness :
    ∃ l, sampleIns.operandsList = some l ∧ l.length ≤ MAX_OPERANDS ∧
      (∀ j, ∀ hj : j < l.length, sampleIns.operand j = some (some (l.get ⟨j, hj⟩))) ∧
      sampleIns.operand l.length = some none :=
  operands_iterator_contents sampleIns (by decide)

/-- Claim C10: the `operands()` iterator is not fused: the `(k+1)`-th pull
of a fresh iterator returns exactly `operand k`, whatever the earlier
pulls returned (the closure state is just the incremented counter), so a
populated slot after the first empty one is yielded again past the first
`None`, and every pull at `k ≥ MAX_OPERANDS` returns `None`. -/
theorem operands_iterator_not_fused (i : Instruction) (k : Nat) :
    i.operandsPull k = i.operand k
    ∧ (MAX_OPERANDS ≤ k → i.operandsPull k = some none) := by
  have h1 : i.operandsPull k = i.operand k := by
    rw [Instruction.operandsPull, operandsStateAfter_eq, Instruction.operandsNext]
  exact ⟨h1, fun h => h1.trans (operand_ge_max i k h)⟩

/-- Concrete instantiation of `operands_iterator_not_fused` on a
non-contiguous record: pull 0 yields `None`, pull 1 still yields the
populated slot 1, and pull 7 (past capacity) yields `None`. -/
theorem operands_iterator_not_fused_witness :
    sampleNC.operandsPull 0 = some none
    ∧ sampleNC.operandsPull 1 = some (some (Operand.Reg ⟨1⟩ none))
    ∧ sampleIns.operandsPull 7 = some none := by
  refine ⟨?_, ?_, ?_⟩
  · exact ((operands_iterator_not_fused sampleNC 0).1).trans (by decide)
  · exact ((operands_iterator_not_fused sampleNC 1).1).trans (by decide)
  · exact (operands_iterator_not_fused sampleIns 7).2 (by decide)
